import Mathlib

/-!
Verification of the lugo Lua-configuration bridge.

This file shallowly embeds the reflection-driven marshaling layer, the
sandbox, the hook and middleware pipelines, the file watcher, and the
type converter of the lugo repository (package `lugo`), and proves or
refutes the specification claims about them.

Modelling conventions:
* gopher-lua values (`lua.LValue`) are embedded as `LuaVal`; Lua numbers
  (`float64` in gopher-lua) are idealized as exact rationals, so floating
  point rounding is outside this model.
* Lua tables are embedded as an array part (list of values, integer keys
  1..n) plus a hash part (association list on string keys), mirroring
  gopher-lua's `LTable` with `RawGetInt`/`RawGetString` access.
* Go's reflection universe is embedded as `GoType` (the `reflect.Kind`s
  the marshaling code handles) and `GoVal` (a reflect value together with
  its declared type).  Struct fields carry name, `lua` tag, and
  exportedness, as `reflect.StructField` does.
* Fallible Go code returning `error` is embedded with `Except String`;
  `*lugo.Error` values (which carry an `ErrorCode`) are embedded as
  `LugoError`, and functions that may return either a coded or a plain
  error return `Except GoError`.
-/

namespace Lugo

/-- Error codes from the `ErrorCode` enumeration (`iota` order).
`ErrIO` is spelled `ErrIo` here. -/
inductive ErrorCode where
  | ErrInvalidType
  | ErrNotFound
  | ErrValidation
  | ErrSandbox
  | ErrExecution
  | ErrTimeout
  | ErrCanceled
  | ErrIo
  | ErrParse
  | ErrConversion
  deriving DecidableEq, Repr

/-- The `lugo.Error` struct: an error code, a message, and an optional
wrapped cause (embedded by its message). `Context`/`Location` are debug
metadata and not modelled. -/
structure LugoError where
  Code : ErrorCode
  Message : String
  Cause : Option String := none
  deriving DecidableEq, Repr

/-- A Go `error` value as surfaced by this package: either a `*lugo.Error`
with a code, or a plain error built with `fmt.Errorf`. -/
inductive GoError where
  | lugo (e : LugoError)
  | plain (msg : String)
  deriving DecidableEq, Repr

/-- Signed integer kinds handled by the marshaling code
(`reflect.Int`, `Int8`, `Int16`, `Int32`, `Int64`). -/
inductive IntKind where
  | i | i8 | i16 | i32 | i64
  deriving DecidableEq, Repr

/-- Unsigned integer kinds (`reflect.Uint`, `Uint8`, `Uint16`, `Uint32`,
`Uint64`). -/
inductive UintKind where
  | u | u8 | u16 | u32 | u64
  deriving DecidableEq, Repr

/-- Float kinds (`reflect.Float32`, `Float64`). -/
inductive FloatKind where
  | f32 | f64
  deriving DecidableEq, Repr

/-- A struct field header as seen through reflection: field name, the
value of its `lua` struct tag (empty when absent), whether the field is
exported (`PkgPath == ""`), and a payload (the field's type, or the
field's type paired with its current value). -/
structure FieldInfo (α : Type) where
  name : String
  tag : String
  exported : Bool
  val : α
  deriving DecidableEq, Repr

/-- The Go types the marshaling layer can encounter.  `interface{}`
targets and the `time.Time` special case are outside this model; every
claim concerns concrete struct targets. -/
inductive GoType where
  | str
  | bool
  | int (k : IntKind)
  | uint (k : UintKind)
  | float (k : FloatKind)
  | struct (fields : List (FieldInfo GoType))
  | slice (elem : GoType)
  | map (key value : GoType)
  deriving Repr

/-- A reflect value: scalars carry their kind, struct fields carry their
declared type and value, slices and maps carry their element types (so
that the type of an empty value is still known, as it is via
`reflect.Type`). Integer values are unbounded here; Go's type system
guarantees the in-range invariant that theorems assume explicitly where
it matters. -/
inductive GoVal where
  | str (s : String)
  | bool (b : Bool)
  | int (k : IntKind) (v : Int)
  | uint (k : UintKind) (v : Nat)
  | float (k : FloatKind) (x : ℚ)
  | struct (fields : List (FieldInfo (GoType × GoVal)))
  | slice (elem : GoType) (xs : List GoVal)
  | map (key value : GoType) (entries : List (GoVal × GoVal))
  deriving Repr

/-- gopher-lua values.  `number` is gopher-lua's `LNumber` (a `float64`),
idealized as an exact rational.  A table is an array part (integer keys
starting at 1) plus a hash part (string keys).  Function values are
represented by an opaque name. -/
inductive LuaVal where
  | nil
  | boolean (b : Bool)
  | number (q : ℚ)
  | str (s : String)
  | table (arr : List LuaVal) (hash : List (String × LuaVal))
  | gofunc (name : String)
  deriving Repr

/-- The `lv == lua.LNil` test (gopher-lua's `LNil` is a unique
sentinel). -/
def LuaVal.isNil : LuaVal → Bool
  | .nil => true
  | _ => false

/-- The `lua.LValue.Type()` name of a value, as printed in error
messages. -/
def luaTypeName : LuaVal → String
  | .nil => "nil"
  | .boolean _ => "boolean"
  | .number _ => "number"
  | .str _ => "string"
  | .table _ _ => "table"
  | .gofunc _ => "function"

/-- How `fmt`'s `%v` prints a `reflect.Type` in the error messages of
`luaToGo`. -/
def goTypeName : GoType → String
  | .str => "string"
  | .bool => "bool"
  | .int .i => "int"
  | .int .i8 => "int8"
  | .int .i16 => "int16"
  | .int .i32 => "int32"
  | .int .i64 => "int64"
  | .uint .u => "uint"
  | .uint .u8 => "uint8"
  | .uint .u16 => "uint16"
  | .uint .u32 => "uint32"
  | .uint .u64 => "uint64"
  | .float .f32 => "float32"
  | .float .f64 => "float64"
  | .struct _ => "struct"
  | .slice _ => "slice"
  | .map _ _ => "map"

/-- `LTable.RawGetString`: look a string key up in the hash part,
returning `LNil` when absent. -/
def hashGet (hash : List (String × LuaVal)) (k : String) : LuaVal :=
  match hash with
  | [] => .nil
  | e :: rest => if e.1 = k then e.2 else hashGet rest k

/-- `LTable.RawSetString`: replace the entry for `k`, or append it. -/
def hashSet (hash : List (String × LuaVal)) (k : String) (v : LuaVal) :
    List (String × LuaVal) :=
  match hash with
  | [] => [(k, v)]
  | e :: rest => if e.1 = k then (k, v) :: rest else e :: hashSet rest k v

/-- The external key of a struct field, as computed identically in
`structToTable`, `validateValue` and `luaToStruct`:
the `lua` tag when present and non-empty, else the lowercased field
name. -/
def fieldKey (name tag : String) : String :=
  if tag = "" then name.toLower else tag

/-- Go's float-to-integer conversion truncates toward zero. -/
def ratTrunc (q : ℚ) : Int :=
  if q < 0 then Int.ceil q else Int.floor q

/-- Go's `int64(v)` conversion of an (unsigned, 64-bit) value: two's
complement wraparound. -/
def int64OfUint64 (v : Nat) : Int :=
  let r : Nat := v % 2 ^ 64
  if r < 2 ^ 63 then (r : Int) else (r : Int) - 2 ^ 64

/-- The declared `reflect.Type` of a value. -/
def GoVal.typeOf : GoVal → GoType
  | .str _ => .str
  | .bool _ => .bool
  | .int k _ => .int k
  | .uint k _ => .uint k
  | .float k _ => .float k
  | .struct fields =>
      .struct (fields.map fun f => ⟨f.name, f.tag, f.exported, f.val.1⟩)
  | .slice elem _ => .slice elem
  | .map k v _ => .map k v

mutual

/-- `reflect.Zero(t)`: the zero value of a type.  Go's zero slice and
map are `nil`; they are embedded as the empty slice/map value. -/
def zeroVal : GoType → GoVal
  | .str => .str ""
  | .bool => .bool false
  | .int k => .int k 0
  | .uint k => .uint k 0
  | .float k => .float k 0
  | .struct fields => .struct (zeroFields fields)
  | .slice e => .slice e []
  | .map k v => .map k v []

/-- The field-wise part of `reflect.Zero` on a struct type. -/
def zeroFields : List (FieldInfo GoType) → List (FieldInfo (GoType × GoVal))
  | [] => []
  | ⟨n, tag, ex, t⟩ :: rest => ⟨n, tag, ex, (t, zeroVal t)⟩ :: zeroFields rest

end

/-- `reflect.Value.String()` as used on map keys in `goToLua`:
the string itself for string keys, a placeholder otherwise. -/
def goKeyString : GoVal → String
  | .str s => s
  | _ => "<invalid Value>"

mutual

/-- `Config.goToLua` (part_001 lines 1775-1829): convert a Go value to a
Lua value.  Pointer indirection and the `v == nil` case do not arise for
the embedded value universe; the struct case reaches the field loop of
`structToTable` (shared here as `structToTableCore`). -/
def goToLua : GoVal → Except String LuaVal
  | .str s => .ok (.str s)
  | .bool b => .ok (.boolean b)
  | .int _ v => .ok (.number (v : ℚ))
  | .uint _ v => .ok (.number (v : ℚ))
  | .float _ x => .ok (.number x)
  | .slice _ xs => do
      let arr ← goToLuaList xs
      pure (.table arr [])
  | .map _ _ entries => do
      let hash ← goToLuaMapEntries entries []
      pure (.table [] hash)
  | .struct fields => do
      let hash ← structToTableCore fields []
      pure (.table [] hash)

/-- The slice/array loop of `goToLua`: convert each element and `Append`
it to the array part; conversion errors abort. -/
def goToLuaList : List GoVal → Except String (List LuaVal)
  | [] => .ok []
  | x :: rest => do
      let lv ← goToLua x
      let tail ← goToLuaList rest
      pure (lv :: tail)

/-- The map loop of `goToLua`: each value is converted and stored under
`k.String()` with `RawSetString`.  (Go map iteration order is
unspecified; the model iterates entries in list order.) -/
def goToLuaMapEntries :
    List (GoVal × GoVal) → List (String × LuaVal) → Except String (List (String × LuaVal))
  | [], acc => .ok acc
  | (k, v) :: rest, acc => do
      let lv ← goToLua v
      goToLuaMapEntries rest (hashSet acc (goKeyString k) lv)

/-- The field loop of `Config.structToTable` (part_001 lines 1567-1586):
skip unexported fields; store each exported field's converted value under
its tag-or-lowercased-name key; wrap conversion errors with the field
key. -/
def structToTableCore :
    List (FieldInfo (GoType × GoVal)) → List (String × LuaVal) → Except String (List (String × LuaVal))
  | [], acc => .ok acc
  | ⟨n, tag, ex, (_t, v)⟩ :: rest, acc =>
      if ex = false then structToTableCore rest acc
      else
        match goToLua v with
        | .error e => .error ("field " ++ fieldKey n tag ++ ": " ++ e)
        | .ok lv => structToTableCore rest (hashSet acc (fieldKey n tag) lv)

end

/-- `Config.structToTable` (part_001 lines 1554-1589): a struct value
becomes a fresh table filled by the field loop; non-struct input is
rejected. -/
def structToTable (v : GoVal) : Except String LuaVal :=
  match v with
  | .struct fields => do
      let hash ← structToTableCore fields []
      pure (.table [] hash)
  | _ => .error ("expected struct, got " ++ goTypeName v.typeOf)

/-- `LTable.ForEach`: iterate the array part (integer keys starting at
1) and then the hash part (string keys), skipping nil values. -/
def tableForEachPairs (arr : List LuaVal) (hash : List (String × LuaVal)) :
    List (LuaVal × LuaVal) :=
  (arr.enum.filterMap fun p =>
    if p.2.isNil then none else some (LuaVal.number ((p.1 + 1 : ℕ) : ℚ), p.2)) ++
  (hash.filterMap fun e => if e.2.isNil then none else some (.str e.1, e.2))

/-- The values visited by `LTable.ForEach`, in visit order. -/
def tableForEachValues (arr : List LuaVal) (hash : List (String × LuaVal)) :
    List LuaVal :=
  (tableForEachPairs arr hash).map (fun p => p.2)

/-- Reassemble a struct value from reflected field headers and decoded
field values (`reflect.Value.Field(i).Set`). -/
def buildStructVal (fields : List (FieldInfo GoType)) (vals : List GoVal) :
    List (FieldInfo (GoType × GoVal)) :=
  List.zipWith (fun f v => ⟨f.name, f.tag, f.exported, (f.val, v)⟩) fields vals

mutual

/-- `Config.luaToGo` (part_001 lines 1831-1959): convert a Lua value to
a Go value of the requested type.  `LNil` becomes the type's zero value.
The `reflect.Interface` branches and the `time.Time` special case are
outside the embedded type universe; no claim involves them.  A number
only converts to `float64`, `float32`, `int`, `int64` or `int32` — the
unsigned, `int8` and `int16` kinds fall to the error branch, exactly as
in the source switch. -/
def luaToGo : LuaVal → GoType → Except String GoVal
  | .nil, t => .ok (zeroVal t)
  | .boolean b, t =>
      match t with
      | .bool => .ok (.bool b)
      | _ => .error ("cannot convert boolean to " ++ goTypeName t)
  | .number n, t =>
      match t with
      | .float .f64 => .ok (.float .f64 n)
      | .float .f32 => .ok (.float .f32 n)
      | .int .i => .ok (.int .i (ratTrunc n))
      | .int .i64 => .ok (.int .i64 (ratTrunc n))
      | .int .i32 => .ok (.int .i32 (ratTrunc n))
      | _ => .error ("cannot convert number to " ++ goTypeName t)
  | .str s, t =>
      match t with
      | .str => .ok (.str s)
      | _ => .error ("cannot convert string to " ++ goTypeName t)
  | .gofunc _, _ => .error "unsupported Lua type: function"
  | .table arr hash, t =>
      match t with
      | .slice elem =>
          if (!arr.isEmpty) && arr.all (fun v => !v.isNil) then
            .ok (.slice elem (decodeSliceElems elem arr))
          else
            .ok (.slice elem (decodeSliceElems elem (tableForEachValues arr hash)))
      | .map kt vt =>
          .ok (.map kt vt (decodeMapEntries kt vt (tableForEachPairs arr hash)))
      | .struct fields => do
          let vals ← decodeStructFields hash fields (fields.map fun f => zeroVal f.val)
          pure (.struct (buildStructVal fields vals))
      | t' => .error ("cannot convert table to " ++ goTypeName t')
termination_by _lv t => (sizeOf t, 0)

/-- The slice branch of `luaToGo`: elements that fail to convert are
silently skipped (`if err == nil`). -/
def decodeSliceElems (elem : GoType) : List LuaVal → List GoVal
  | [] => []
  | v :: rest =>
      match luaToGo v elem with
      | .ok gv => gv :: decodeSliceElems elem rest
      | .error _ => decodeSliceElems elem rest
termination_by xs => (sizeOf elem, 1 + sizeOf xs)

/-- The map branch of `luaToGo`: pairs whose key or value fails to
convert are silently skipped; `SetMapIndex` stores the rest. -/
def decodeMapEntries (kt vt : GoType) : List (LuaVal × LuaVal) → List (GoVal × GoVal)
  | [] => []
  | (k, v) :: rest =>
      have hkt : 0 < sizeOf kt := by cases kt <;> simp_arith
      have hvt : 0 < sizeOf vt := by cases vt <;> simp_arith
      match luaToGo k kt with
      | .error _ => decodeMapEntries kt vt rest
      | .ok gk =>
          match luaToGo v vt with
          | .error _ => decodeMapEntries kt vt rest
          | .ok gv => (gk, gv) :: decodeMapEntries kt vt rest
termination_by ps => (sizeOf kt + sizeOf vt, 1 + sizeOf ps)

/-- The field loop of `Config.luaToStruct` (part_001 lines 1745-1770):
unexported fields are skipped; a field whose key is nil/absent in the
table keeps its current value; otherwise the table entry is converted to
the field's type (errors wrapped with the key) and written.  The
mutation of the Go target is embedded by returning the updated field
values. -/
def decodeStructFields (hash : List (String × LuaVal)) :
    List (FieldInfo GoType) → List GoVal → Except String (List GoVal)
  | [], _ => .ok []
  | ⟨n, tag, ex, t⟩ :: rest, currents =>
      let cur := currents.headD (zeroVal t)
      if ex = false then do
        let tail ← decodeStructFields hash rest currents.tail
        pure (cur :: tail)
      else
        let lval := hashGet hash (fieldKey n tag)
        if lval.isNil then do
          let tail ← decodeStructFields hash rest currents.tail
          pure (cur :: tail)
        else
          match luaToGo lval t with
          | .error e => .error ("field " ++ fieldKey n tag ++ ": " ++ e)
          | .ok gv => do
              let tail ← decodeStructFields hash rest currents.tail
              pure (gv :: tail)
termination_by fields _currents => (sizeOf fields, 0)

end

/-- `Config.luaToStruct` (part_001 lines 1730-1773): the target must be
a pointer to a struct (embedded as the struct value it points to) and
the Lua value a table; the field loop is `decodeStructFields`. -/
def luaToStruct (lv : LuaVal) (target : GoVal) : Except String GoVal :=
  match target with
  | .struct fields =>
      match lv with
      | .table _arr hash => do
          let ftypes : List (FieldInfo GoType) :=
            fields.map fun f => ⟨f.name, f.tag, f.exported, f.val.1⟩
          let vals ← decodeStructFields hash ftypes (fields.map fun f => f.val.2)
          pure (.struct (buildStructVal ftypes vals))
      | _ => .error ("expected table, got " ++ luaTypeName lv)
  | _ => .error "target must be a pointer to struct"

mutual

/-- `Config.validateValue` (part_001 lines 1662-1728): shape-check a Lua
value against a Go type.  `LNil` passes for every kind (both branches of
the source's nil-switch return nil); tables are required for
struct/slice/map, strings/numbers/booleans for the matching scalar
kinds.  Unsigned kinds have no case in the source switch and pass
unchecked. -/
def validateValue : LuaVal → GoType → Except String Unit
  | .nil, _ => .ok ()
  | lv, .struct fields =>
      match lv with
      | .table _arr hash => validateFields hash fields
      | _ => .error ("expected table for struct, got " ++ luaTypeName lv)
  | lv, .slice _ =>
      match lv with
      | .table _ _ => .ok ()
      | _ => .error ("expected table for slice, got " ++ luaTypeName lv)
  | lv, .map _ _ =>
      match lv with
      | .table _ _ => .ok ()
      | _ => .error ("expected table for map, got " ++ luaTypeName lv)
  | lv, .str =>
      match lv with
      | .str _ => .ok ()
      | _ => .error ("expected string, got " ++ luaTypeName lv)
  | lv, .int _ =>
      match lv with
      | .number _ => .ok ()
      | _ => .error ("expected number, got " ++ luaTypeName lv)
  | lv, .float _ =>
      match lv with
      | .number _ => .ok ()
      | _ => .error ("expected number, got " ++ luaTypeName lv)
  | lv, .bool =>
      match lv with
      | .boolean _ => .ok ()
      | _ => .error ("expected boolean, got " ++ luaTypeName lv)
  | _, .uint _ => .ok ()

/-- The struct-field loop of `validateValue`: each exported field's
table entry (`RawGetString` of its key) is checked against the field
type; errors are wrapped with the key. -/
def validateFields (hash : List (String × LuaVal)) :
    List (FieldInfo GoType) → Except String Unit
  | [] => .ok ()
  | ⟨n, tag, ex, t⟩ :: rest =>
      if ex = false then validateFields hash rest
      else
        match validateValue (hashGet hash (fieldKey n tag)) t with
        | .error e => .error ("field " ++ fieldKey n tag ++ ": " ++ e)
        | .ok () => validateFields hash rest

end

/-- `Config.Get` (part_001 lines 1393-1414): fetch the global, fail with
code `ErrNotFound` when it is nil/absent, shape-check it against the
target's struct type (failures wrapped with code `ErrValidation`), and
only then decode with `luaToStruct` (whose errors are plain, uncoded
errors). -/
def Config.Get (globals : List (String × LuaVal)) (name : String) (target : GoVal) :
    Except GoError GoVal :=
  let lv := hashGet globals name
  if lv.isNil then
    .error (.lugo ⟨.ErrNotFound, "configuration '" ++ name ++ "' not found", none⟩)
  else
    match validateValue lv target.typeOf with
    | .error e => .error (.lugo ⟨.ErrValidation, "validation failed", some e⟩)
    | .ok () =>
        match luaToStruct lv target with
        | .error e => .error (.plain e)
        | .ok v => .ok v

/-- The Lua globals table of an `LState`, keyed by global name
(`SetGlobal`/`GetGlobal` are `hashSet`/`hashGet`; an absent global reads
as `LNil`). -/
abbrev Globals := List (String × LuaVal)

/-- The `lugo.Sandbox` options struct.  The source field `EnableFileIO`
is spelled `EnableFileIo` here; durations are in nanoseconds
(`time.Duration`). -/
structure Sandbox where
  EnableFileIo : Bool
  EnableNetworking : Bool
  EnableSyscalls : Bool
  MaxMemory : Nat
  MaxExecutionTime : Nat
  AllowedPaths : List String
  BlockedPaths : List String
  deriving Repr

/-- `Config.applySandboxRestrictions` (part_001 lines 1445-1538): build
the `restricted` table (safe basic functions, the string/table/math
libraries, a restricted `os` table and a guarding `require`), nil out
the file-I/O globals when file I/O is disabled, and finally store the
restricted table under the global name `_G`.  The returned pair is the
globals table after the mutations plus the error, if any; on the
memory-limit error the earlier mutations are already in place, as in
the source.  `PreloadModule("socket", nil)` touches the registry, not a
global, and `SetMx` only sets the collector limit; neither affects the
modelled globals. -/
def applySandboxRestrictions (sb : Sandbox) (g0 : Globals) : Globals × Option String :=
  let safeFuncNames : List String :=
    ["assert", "error", "ipairs", "next", "pairs", "select",
     "tonumber", "tostring", "type", "unpack"]
  let safeLibNames : List String := ["string", "table", "math"]
  let restrictedBase : List (String × LuaVal) :=
    safeFuncNames.map (fun n => (n, hashGet g0 n)) ++
    safeLibNames.map (fun n => (n, hashGet g0 n))
  let afterFileIo : Globals × List (String × LuaVal) :=
    if sb.EnableFileIo = false then
      let g1 : Globals :=
        hashSet (hashSet (hashSet (hashSet g0 "io" .nil)
          "dofile" .nil) "loadfile" .nil) "load" .nil
      let osTable : List (String × LuaVal) :=
        if sb.EnableSyscalls then
          ["clock", "date", "difftime", "time"].map fun fname =>
            (fname,
              match hashGet g1 "os" with
              | .table _ h => hashGet h fname
              | _ => .nil)
        else []
      (g1, restrictedBase ++ [("os", .table [] osTable)])
    else (g0, restrictedBase)
  let g1 := afterFileIo.1
  let restricted := afterFileIo.2 ++ [("require", .gofunc "sandboxRequire")]
  if sb.MaxMemory > 0 ∧ sb.MaxMemory / 1024 < 100 then
    (g1, some "memory limit too small (minimum 100KB)")
  else
    (hashSet g1 "_G" (.table [] restricted), none)

/-- The replacement `require` stored in the restricted table (part_001
lines 1501-1523): `io`/`os` are blocked when file I/O is disabled and
`socket` when networking is disabled — each returning nil plus a
message — and every other module is delegated to the original
`require`.  The values pushed onto the Lua stack are modelled as the
returned list. -/
def sandboxRequire (sb : Sandbox) (origRequire : String → LuaVal)
    (modname : String) : List LuaVal :=
  if sb.EnableFileIo = false ∧ (modname = "io" ∨ modname = "os") then
    [.nil, .str ("module '" ++ modname ++ "' is disabled")]
  else if sb.EnableNetworking = false ∧ modname = "socket" then
    [.nil, .str "networking is disabled"]
  else
    [origRequire modname]

/-- A hook, embedded as a state transformer over an abstract state `S`
returning the hook's error, if any (Go hooks are effectful closures;
the state makes their invocation observable). -/
abbrev HookFn (S : Type) := S → S × Option String

/-- `Config.runHooks` (part_001 lines 1540-1552): run the registered
hooks in registration order, stopping at — and returning — the first
error. -/
def runHooks {S : Type} : List (HookFn S) → S → S × Option String
  | [], s => (s, none)
  | h :: rest, s =>
      match h s with
      | (s', some e) => (s', some e)
      | (s', none) => runHooks rest s'

/-- The observable outcome of `Config.LoadFile`: the hook state, the
Lua globals, whether the file was executed, and the returned error, if
any. -/
structure LoadFileOutcome (S : Type) where
  hookState : S
  luaState : Globals
  fileExecuted : Bool
  result : Option GoError

/-- `Config.LoadFile` (part_001 lines 1351-1390): run the `BeforeLoad`
hooks (an error aborts with code `ErrExecution` before anything else
happens), apply the sandbox restrictions (an error aborts with code
`ErrSandbox`), execute the file (`DoFile`, abstracted as a state
transformer that may fail; failure aborts with code `ErrExecution`),
then run the `AfterLoad` hooks, whose error is returned unwrapped. -/
def Config.LoadFile {S : Type} (beforeHooks afterHooks : List (HookFn S))
    (sb : Sandbox) (doFile : Globals → Globals × Option String)
    (hs : S) (g : Globals) : LoadFileOutcome S :=
  match runHooks beforeHooks hs with
  | (hs1, some e) =>
      ⟨hs1, g, false, some (.lugo ⟨.ErrExecution, "before load hook failed", some e⟩)⟩
  | (hs1, none) =>
      match applySandboxRestrictions sb g with
      | (g1, some e) =>
          ⟨hs1, g1, false,
            some (.lugo ⟨.ErrSandbox, "failed to apply sandbox restrictions", some e⟩)⟩
      | (g1, none) =>
          match doFile g1 with
          | (g2, some e) =>
              ⟨hs1, g2, true, some (.lugo ⟨.ErrExecution, "failed to load file", some e⟩)⟩
          | (g2, none) =>
              match runHooks afterHooks hs1 with
              | (hs2, some e) => ⟨hs2, g2, true, some (.plain e)⟩
              | (hs2, none) => ⟨hs2, g2, true, none⟩

/-- The middleware list of a `Config`; `F` abstracts the `LuaFunction`
type that middlewares wrap. -/
structure ConfigModel (F : Type) where
  middlewares : List (F → F)

/-- `WithMiddleware` (part_001 lines 1181-1185): append to the
middleware list. -/
def WithMiddleware {F : Type} (middleware : F → F) (c : ConfigModel F) :
    ConfigModel F :=
  ⟨c.middlewares ++ [middleware]⟩

/-- The middleware application loop of `Config.RegisterFunction`
(part_001 lines 1255-1259): `final := wrapped`, then for
`i := len-1` down to `0`, `final = middlewares[i](final)` — i.e. the
first-registered middleware is applied last and ends up outermost. -/
def applyMiddlewares {F : Type} : List (F → F) → F → F
  | [], wrapped => wrapped
  | m :: rest, wrapped => m (applyMiddlewares rest wrapped)

/-- An observing middleware: logs entry, calls the wrapped function,
logs exit.  Used to exhibit the execution order produced by
`applyMiddlewares`. -/
def traceMiddleware (n : String) (next : Unit → List String) :
    Unit → List String :=
  fun u => ("enter:" ++ n) :: (next u ++ ["exit:" ++ n])

/-- `lugo.WatcherConfig` (watcher.go lines 14-24); durations in
nanoseconds, `OnReload` abstracted away. -/
structure WatcherConfig where
  Paths : List String
  PollInterval : Nat
  DebounceInterval : Nat
  deriving DecidableEq, Repr

/-- The interval defaulting performed by `Config.NewWatcher`
(watcher.go lines 42-47): a zero `PollInterval` becomes 5s and a zero
`DebounceInterval` becomes 100ms. -/
def NewWatcher.normalizeConfig (w : WatcherConfig) : WatcherConfig :=
  let w1 : WatcherConfig :=
    if w.PollInterval = 0 then ⟨w.Paths, 5000000000, w.DebounceInterval⟩ else w
  if w1.DebounceInterval = 0 then ⟨w1.Paths, w1.PollInterval, 100000000⟩ else w1

/-- fsnotify operations. -/
inductive FsOp where
  | Create | Write | Remove | Rename | Chmod
  deriving DecidableEq, Repr

/-- One iteration's input to the `select` in `ConfigWatcher.watch`. -/
inductive WatchInput where
  | fsEvent (op : FsOp)
  | fsError (msg : String)
  | stopSignal
  deriving DecidableEq, Repr

/-- One iteration of `ConfigWatcher.watch` (watcher.go lines 150-176):
on a Write or Create event the debounce timer is (re)started with
duration `DebounceInterval`, scheduling the `reload` closure; watcher
errors are only logged; a stop signal stops the timer and exits the
loop.  The result is the pending debounce timer (represented by its
duration) and whether the loop exits.  `PollInterval` is not consulted
anywhere in the loop. -/
def watchStep (wcfg : WatcherConfig) (debounceTimer : Option Nat) :
    WatchInput → Option Nat × Bool
  | .fsEvent op =>
      if op = .Write ∨ op = .Create then (some wcfg.DebounceInterval, false)
      else (debounceTimer, false)
  | .fsError _ => (debounceTimer, false)
  | .stopSignal => (none, true)

/-- The `reload` closure of `ConfigWatcher.watch` (watcher.go lines
124-148): reload every watched path in order through `LoadFile`,
stopping at the first error, which is handed to `OnReload`. -/
def watchReloadPaths : List String → (String → Option String) → Option String
  | [], _ => none
  | p :: rest, load =>
      match load p with
      | some e => some e
      | none => watchReloadPaths rest load

/-- A value passed as `interface{}` to the `TypeConverter` methods: the
dynamic types relevant to `ToInt` (types.go). -/
inductive GoDyn where
  | null
  | int (v : Int)
  | int8 (v : Int)
  | int16 (v : Int)
  | int32 (v : Int)
  | int64 (v : Int)
  | uint (v : Nat)
  | uint8 (v : Nat)
  | uint16 (v : Nat)
  | uint32 (v : Nat)
  | uint64 (v : Nat)
  | float32 (x : ℚ)
  | float64 (x : ℚ)
  | str (s : String)
  | bool (b : Bool)
  | other (typeName : String)
  deriving DecidableEq, Repr

/-- `strconv.ParseInt(s, 10, 64)`: base-10 parse failing on syntax or
64-bit range overflow. -/
def parseInt64 (s : String) : Option Int :=
  match s.toInt? with
  | some i => if -(2 ^ 63) ≤ i ∧ i ≤ 2 ^ 63 - 1 then some i else none
  | none => none

/-- `TypeConverter.ToInt` (types.go lines 44-101): nil becomes 0; signed
integers return their exact value (`int64(val)` is exact, the values
being in range by Go's typing); `uint` converts with two's-complement
wraparound (`int64(val)` on a 64-bit word); `uint8/16/32` widen exactly;
`uint64` is checked against `math.MaxInt64` and rejected with
`ErrInvalidType` on overflow; floats truncate toward zero; strings parse
in base 10; booleans become 1 or 0; any other type is rejected with
`ErrInvalidType`. -/
def TypeConverter.ToInt : GoDyn → Except LugoError Int
  | .null => .ok 0
  | .int v => .ok v
  | .int8 v => .ok v
  | .int16 v => .ok v
  | .int32 v => .ok v
  | .int64 v => .ok v
  | .uint v => .ok (int64OfUint64 v)
  | .uint8 v => .ok (v : Int)
  | .uint16 v => .ok (v : Int)
  | .uint32 v => .ok (v : Int)
  | .uint64 v =>
      if v > 2 ^ 63 - 1 then
        .error ⟨.ErrInvalidType, "uint64 value overflows int64", none⟩
      else .ok (v : Int)
  | .float32 x => .ok (ratTrunc x)
  | .float64 x => .ok (ratTrunc x)
  | .str s =>
      match parseInt64 s with
      | some i => .ok i
      | none =>
          .error ⟨.ErrInvalidType, "cannot convert string '" ++ s ++ "' to int",
            some "strconv.ParseInt failed"⟩
  | .bool b => .ok (if b then 1 else 0)
  | .other tn => .error ⟨.ErrInvalidType, "cannot convert type " ++ tn ++ " to int", none⟩

/-- A hook that records its name in the log state and succeeds. -/
def okHook (n : String) : HookFn (List String) :=
  fun log => (log ++ [n], none)

/-- A hook that records its name in the log state and fails with the
given message. -/
def failHook (n : String) (emsg : String) : HookFn (List String) :=
  fun log => (log ++ [n], some emsg)

/-- A representative pre-sandbox globals table: base library functions,
the standard libraries, the file-I/O globals, and the full `os`
library. -/
def sampleGlobals : Globals :=
  [("assert", .gofunc "assert"), ("error", .gofunc "error"),
   ("ipairs", .gofunc "ipairs"), ("next", .gofunc "next"),
   ("pairs", .gofunc "pairs"), ("select", .gofunc "select"),
   ("tonumber", .gofunc "tonumber"), ("tostring", .gofunc "tostring"),
   ("type", .gofunc "type"), ("unpack", .gofunc "unpack"),
   ("string", .table [] []), ("table", .table [] []), ("math", .table [] []),
   ("io", .table [] [("open", .gofunc "io.open")]),
   ("dofile", .gofunc "dofile"), ("loadfile", .gofunc "loadfile"),
   ("load", .gofunc "load"),
   ("os", .table [] [("clock", .gofunc "os.clock"), ("date", .gofunc "os.date"),
     ("difftime", .gofunc "os.difftime"), ("time", .gofunc "os.time"),
     ("remove", .gofunc "os.remove"), ("getenv", .gofunc "os.getenv")]),
   ("require", .gofunc "require")]

/-- A fully locked-down sandbox (file I/O, networking and syscalls
disabled; no memory limit). -/
def lockedSandbox : Sandbox := ⟨false, false, false, 0, 0, [], []⟩

/-- The hash part of the value a global holds, when it is a table. -/
def globalTableEntry (g : Globals) (globalName entryName : String) : LuaVal :=
  match hashGet g globalName with
  | .table _ h => hashGet h entryName
  | _ => .nil

/-- The scalar type/value pairs on which `luaToGo` inverts `goToLua`:
string, bool, the `int`/`int32`/`int64` kinds and the float kinds with
matching value — exactly the kinds `luaToGo` accepts a number for. -/
def supportedScalar : GoType → GoVal → Bool
  | .str, .str _ => true
  | .bool, .bool _ => true
  | .int .i, .int .i _ => true
  | .int .i32, .int .i32 _ => true
  | .int .i64, .int .i64 _ => true
  | .float .f32, .float .f32 _ => true
  | .float .f64, .float .f64 _ => true
  | _, _ => false

/-- The external keys of a struct value's exported fields, in field
order. -/
def exportedKeys (fields : List (FieldInfo (GoType × GoVal))) : List String :=
  (fields.filter fun f => f.exported).map fun f => fieldKey f.name f.tag

/-- A sample struct value: exported string and int fields plus an
unexported bool field. -/
def sampleStructFields : List (FieldInfo (GoType × GoVal)) :=
  [⟨"Host", "host", true, (.str, .str "localhost")⟩,
   ⟨"Port", "port", true, (.int .i, .int .i 8080)⟩,
   ⟨"debug", "d", false, (.bool, .bool true)⟩]

section InfrastructureLemmas

theorem runHooks_okHooks (names : List String) (log : List String) :
    runHooks (names.map okHook) log = (log ++ names, none) := by
  induction names generalizing log with
  | nil => simp [runHooks]
  | cons n rest ih => simp [runHooks, okHook, ih]

theorem runHooks_okHooks_then_fail (names : List String) (b emsg : String)
    (post : List (HookFn (List String))) (log : List String) :
    runHooks (names.map okHook ++ failHook b emsg :: post) log =
      (log ++ names ++ [b], some emsg) := by
  induction names generalizing log with
  | nil => simp [runHooks, failHook]
  | cons n rest ih => simp [runHooks, okHook, ih]

theorem applyMiddlewares_trace (names : List String) (f : Unit → List String) :
    applyMiddlewares (names.map traceMiddleware) f () =
      (names.map fun n => "enter:" ++ n) ++ f () ++
        (names.reverse.map fun n => "exit:" ++ n) := by
  induction names generalizing f with
  | nil => simp [applyMiddlewares]
  | cons n rest ih =>
      simp [applyMiddlewares, traceMiddleware, ih]

theorem int64OfUint64_of_le (n : Nat) (h : n ≤ 2 ^ 63 - 1) :
    int64OfUint64 n = (n : Int) := by
  have h1 : n < 2 ^ 63 := by omega
  have h2 : n % 2 ^ 64 = n := Nat.mod_eq_of_lt (by omega)
  simp only [int64OfUint64, h2]
  rw [if_pos h1]

theorem isNil_iff (lv : LuaVal) : lv.isNil = true ↔ lv = .nil := by
  cases lv <;> simp [LuaVal.isNil]

theorem hashGet_hashSet_self (h : List (String × LuaVal)) (k : String) (v : LuaVal) :
    hashGet (hashSet h k v) k = v := by
  induction h with
  | nil => simp [hashSet, hashGet]
  | cons e rest ih =>
      by_cases he : e.1 = k
      · simp [hashSet, he, hashGet]
      · simp [hashSet, he, hashGet, ih]

theorem hashGet_hashSet_ne (h : List (String × LuaVal)) (k k' : String) (v : LuaVal)
    (hne : k' ≠ k) : hashGet (hashSet h k v) k' = hashGet h k' := by
  have hkk : ¬(k = k') := fun e => hne e.symm
  induction h with
  | nil => simp [hashSet, hashGet, hkk]
  | cons e rest ih =>
      by_cases he : e.1 = k
      · simp [hashSet, he, hashGet, hkk]
      · simp [hashSet, he, hashGet, ih]

theorem ratTrunc_intCast (v : Int) : ratTrunc ((v : ℚ)) = v := by
  unfold ratTrunc
  split <;> simp

theorem scalar_roundtrip (t : GoType) (v : GoVal) (h : supportedScalar t v = true) :
    ∃ lv, goToLua v = .ok lv ∧ lv.isNil = false ∧ luaToGo lv t = .ok v := by
  revert h
  cases t <;> cases v <;> intro h <;> try (simp [supportedScalar] at h)
  case str.str s =>
    exact ⟨.str s, by simp [goToLua], rfl, by simp [luaToGo]⟩
  case bool.bool b =>
    exact ⟨.boolean b, by simp [goToLua], rfl, by simp [luaToGo]⟩
  case int.int k k' n =>
    cases k <;> cases k' <;> try (simp [supportedScalar] at h)
    all_goals
      exact ⟨.number ((n : ℚ)), by simp [goToLua], rfl,
        by simp [luaToGo, ratTrunc_intCast]⟩
  case float.float k k' x =>
    cases k <;> cases k' <;> try (simp [supportedScalar] at h)
    all_goals
      exact ⟨.number x, by simp [goToLua], rfl, by simp [luaToGo]⟩

theorem zeroFields_eq_map (l : List (FieldInfo GoType)) :
    zeroFields l = l.map fun f => ⟨f.name, f.tag, f.exported, (f.val, zeroVal f.val)⟩ := by
  induction l with
  | nil => rfl
  | cons f rest ih =>
      cases f
      simp [zeroFields, ih]

theorem buildStructVal_map_map {α : Type} (l : List α) (ft : α → FieldInfo GoType)
    (g : α → GoVal) :
    buildStructVal (l.map ft) (l.map g) =
      l.map fun a => ⟨(ft a).name, (ft a).tag, (ft a).exported, ((ft a).val, g a)⟩ := by
  induction l with
  | nil => rfl
  | cons a rest ih => simp [buildStructVal, ih]

theorem structToTableCore_spec (fields : List (FieldInfo (GoType × GoVal)))
    (henc : ∀ f ∈ fields, f.exported = true → ∃ lv, goToLua f.val.2 = .ok lv)
    (hnd : (exportedKeys fields).Nodup) (acc : List (String × LuaVal)) :
    ∃ h, structToTableCore fields acc = .ok h ∧
      (∀ f ∈ fields, f.exported = true →
        ∀ lv, goToLua f.val.2 = .ok lv → hashGet h (fieldKey f.name f.tag) = lv) ∧
      (∀ k, k ∉ exportedKeys fields → hashGet h k = hashGet acc k) := by
  induction fields generalizing acc with
  | nil => exact ⟨acc, rfl, by simp, fun k _ => rfl⟩
  | cons f rest ih =>
      obtain ⟨n, tag, ex, t, v⟩ := f
      have henc' : ∀ f ∈ rest, f.exported = true → ∃ lv, goToLua f.val.2 = .ok lv :=
        fun f hf hx => henc f (List.mem_cons_of_mem _ hf) hx
      cases ex with
      | false =>
          have hkeys : exportedKeys (⟨n, tag, false, (t, v)⟩ :: rest) =
              exportedKeys rest := by
            simp [exportedKeys]
          rw [hkeys] at hnd
          obtain ⟨h, hok, hmem, hout⟩ := ih henc' hnd acc
          refine ⟨h, ?_, ?_, ?_⟩
          · simpa [structToTableCore] using hok
          · intro f' hf' hx lv hlv
            rcases List.mem_cons.mp hf' with rfl | hf'r
            · simp at hx
            · exact hmem f' hf'r hx lv hlv
          · intro k hk
            rw [hkeys] at hk
            exact hout k hk
      | true =>
          obtain ⟨lv₀, hlv₀⟩ := henc ⟨n, tag, true, (t, v)⟩ (List.mem_cons_self _ _) rfl
          have hkeys : exportedKeys (⟨n, tag, true, (t, v)⟩ :: rest) =
              fieldKey n tag :: exportedKeys rest := by
            simp [exportedKeys]
          rw [hkeys] at hnd
          have hnotin : fieldKey n tag ∉ exportedKeys rest := (List.nodup_cons.mp hnd).1
          have hndr : (exportedKeys rest).Nodup := (List.nodup_cons.mp hnd).2
          obtain ⟨h, hok, hmem, hout⟩ := ih henc' hndr (hashSet acc (fieldKey n tag) lv₀)
          refine ⟨h, ?_, ?_, ?_⟩
          · simpa [structToTableCore, hlv₀] using hok
          · intro f' hf' hx lv hlv
            rcases List.mem_cons.mp hf' with rfl | hf'r
            · have hlv' : goToLua v = .ok lv := hlv
              rw [hlv₀] at hlv'
              injection hlv' with hv
              have h1 : hashGet h (fieldKey n tag) = lv₀ := by
                rw [hout _ hnotin, hashGet_hashSet_self]
              exact h1.trans hv
            · exact hmem f' hf'r hx lv hlv
          · intro k hk
            rw [hkeys] at hk
            have hk1 : k ≠ fieldKey n tag := by
              intro e
              exact hk (by rw [e]; exact List.mem_cons_self _ _)
            have hk2 : k ∉ exportedKeys rest := fun m => hk (List.mem_cons_of_mem _ m)
            rw [hout k hk2, hashGet_hashSet_ne _ _ _ _ hk1]

theorem decodeStructFields_exact (hash : List (String × LuaVal))
    (fields : List (FieldInfo (GoType × GoVal)))
    (hdec : ∀ f ∈ fields, f.exported = true →
      (hashGet hash (fieldKey f.name f.tag)).isNil = false ∧
      luaToGo (hashGet hash (fieldKey f.name f.tag)) f.val.1 = .ok f.val.2) :
    decodeStructFields hash (fields.map fun f => ⟨f.name, f.tag, f.exported, f.val.1⟩)
        (fields.map fun f => zeroVal f.val.1) =
      .ok (fields.map fun f => if f.exported = true then f.val.2 else zeroVal f.val.1) := by
  induction fields with
  | nil => simp [decodeStructFields]
  | cons f rest ih =>
      obtain ⟨n, tag, ex, t, v⟩ := f
      have hdec' : ∀ f ∈ rest, f.exported = true →
          (hashGet hash (fieldKey f.name f.tag)).isNil = false ∧
          luaToGo (hashGet hash (fieldKey f.name f.tag)) f.val.1 = .ok f.val.2 :=
        fun f hf hx => hdec f (List.mem_cons_of_mem _ hf) hx
      have ihr := ih hdec'
      cases ex with
      | false =>
          simp only [List.map_cons]
          simp [decodeStructFields, ihr]
      | true =>
          have hd := hdec ⟨n, tag, true, (t, v)⟩ (List.mem_cons_self _ _) rfl
          simp only [List.map_cons]
          simp [decodeStructFields, hd.1, hd.2, ihr]

theorem decodeStructFields_forall2 (hash : List (String × LuaVal))
    (fields : List (FieldInfo (GoType × GoVal))) :
    ∀ (vals : List GoVal),
      decodeStructFields hash (fields.map fun f => ⟨f.name, f.tag, f.exported, f.val.1⟩)
          (fields.map fun f => f.val.2) = .ok vals →
      List.Forall₂ (fun f v =>
        (f.exported = false → v = f.val.2) ∧
        (f.exported = true → (hashGet hash (fieldKey f.name f.tag)).isNil = true →
          v = f.val.2) ∧
        (f.exported = true → (hashGet hash (fieldKey f.name f.tag)).isNil = false →
          luaToGo (hashGet hash (fieldKey f.name f.tag)) f.val.1 = .ok v))
        fields vals := by
  induction fields with
  | nil =>
      intro vals hok
      simp [decodeStructFields] at hok
      subst hok
      exact .nil
  | cons f rest ih =>
      intro vals hok
      obtain ⟨n, tag, ex, t, v⟩ := f
      cases ex with
      | false =>
          simp only [List.map_cons] at hok
          simp only [decodeStructFields, List.headD_cons, List.tail_cons] at hok
          cases hrec : decodeStructFields hash
              (rest.map fun f => ⟨f.name, f.tag, f.exported, f.val.1⟩)
              (rest.map fun f => f.val.2) with
          | error e => rw [hrec] at hok; simp at hok
          | ok tail =>
              rw [hrec] at hok
              simp at hok
              rw [← hok]
              exact .cons ⟨fun _ => rfl, fun h => by simp at h, fun h => by simp at h⟩
                (ih tail hrec)
      | true =>
          simp only [List.map_cons] at hok
          simp only [decodeStructFields, List.headD_cons, List.tail_cons] at hok
          by_cases hnil : (hashGet hash (fieldKey n tag)).isNil = true
          · rw [if_pos hnil] at hok
            cases hrec : decodeStructFields hash
                (rest.map fun f => ⟨f.name, f.tag, f.exported, f.val.1⟩)
                (rest.map fun f => f.val.2) with
            | error e => rw [hrec] at hok; simp at hok
            | ok tail =>
                rw [hrec] at hok
                simp at hok
                rw [← hok]
                refine .cons ⟨fun h => by simp at h, fun _ _ => rfl, ?_⟩ (ih tail hrec)
                intro _ hf
                rw [hf] at hnil
                simp at hnil
          · have hnil' : (hashGet hash (fieldKey n tag)).isNil = false := by
              revert hnil
              cases (hashGet hash (fieldKey n tag)).isNil <;> simp
            rw [hnil'] at hok
            simp only [if_false, Bool.false_eq_true] at hok
            cases hgo : luaToGo (hashGet hash (fieldKey n tag)) t with
            | error e => rw [hgo] at hok; simp at hok
            | ok gv =>
                rw [hgo] at hok
                cases hrec : decodeStructFields hash
                    (rest.map fun f => ⟨f.name, f.tag, f.exported, f.val.1⟩)
                    (rest.map fun f => f.val.2) with
                | error e => rw [hrec] at hok; simp at hok
                | ok tail =>
                    rw [hrec] at hok
                    simp at hok
                    rw [← hok]
                    refine .cons ⟨fun h => by simp at h, ?_, fun _ _ => hgo⟩
                      (ih tail hrec)
                    intro _ hf
                    rw [hf] at hnil'
                    simp at hnil'

end InfrastructureLemmas

/-- C1 counterexample: the round trip fails on a struct whose exported
field has Go type `uint`: `structToTable` encodes the field as a Lua
number, but `luaToGo` has no number-to-unsigned case, so decoding the
resulting table back into a fresh zero value fails. -/
theorem marshal_roundtrip_uint_counterexample :
    structToTable (.struct [⟨"Count", "count", true, (.uint .u, .uint .u 1)⟩]) =
      .ok (.table [] [("count", .number ((1 : ℕ) : ℚ))]) ∧
    luaToStruct (.table [] [("count", .number ((1 : ℕ) : ℚ))])
        (zeroVal (GoVal.typeOf
          (.struct [⟨"Count", "count", true, (.uint .u, .uint .u 1)⟩]))) =
      .error "field count: cannot convert number to uint" := by
  constructor
  · simp [structToTable, structToTableCore, goToLua, fieldKey, hashSet]
  · simp [GoVal.typeOf, zeroVal, zeroFields, luaToStruct, decodeStructFields,
      hashGet, fieldKey, LuaVal.isNil, luaToGo, goTypeName]

/-- C1 (amended): the round trip holds on the scalar kinds `luaToGo`
can decode: for every struct value whose exported fields have kinds
string, bool, int, int32, int64, float32 or float64 (with Lua numbers
idealized as exact rationals) and whose exported fields have pairwise
distinct external keys, `structToTable` followed by `luaToStruct` into
a fresh zero value reproduces every exported field exactly (unexported
fields stay at their zero value, as they are skipped by both
directions). -/
theorem marshal_roundtrip_supported (fields : List (FieldInfo (GoType × GoVal)))
    (hsup : ∀ f ∈ fields, f.exported = true → supportedScalar f.val.1 f.val.2 = true)
    (hnd : (exportedKeys fields).Nodup) :
    ∃ hash, structToTable (.struct fields) = .ok (.table [] hash) ∧
      luaToStruct (.table [] hash) (zeroVal (GoVal.typeOf (.struct fields))) =
        .ok (.struct (fields.map fun f =>
          ⟨f.name, f.tag, f.exported,
            (f.val.1, if f.exported = true then f.val.2 else zeroVal f.val.1)⟩)) := by
  have henc : ∀ f ∈ fields, f.exported = true → ∃ lv, goToLua f.val.2 = .ok lv := by
    intro f hf hx
    obtain ⟨lv, h1, -, -⟩ := scalar_roundtrip _ _ (hsup f hf hx)
    exact ⟨lv, h1⟩
  obtain ⟨h, hok, hmem, -⟩ := structToTableCore_spec fields henc hnd []
  have hdec : ∀ f ∈ fields, f.exported = true →
      (hashGet h (fieldKey f.name f.tag)).isNil = false ∧
      luaToGo (hashGet h (fieldKey f.name f.tag)) f.val.1 = .ok f.val.2 := by
    intro f hf hx
    obtain ⟨lv, h1, h2, h3⟩ := scalar_roundtrip _ _ (hsup f hf hx)
    have hg := hmem f hf hx lv h1
    rw [hg]
    exact ⟨h2, h3⟩
  refine ⟨h, ?_, ?_⟩
  · simp [structToTable, hok]
  · have hzero : zeroVal (GoVal.typeOf (.struct fields)) =
        GoVal.struct (fields.map fun f =>
          ⟨f.name, f.tag, f.exported, (f.val.1, zeroVal f.val.1)⟩) := by
      simp [GoVal.typeOf, zeroVal, zeroFields_eq_map, List.map_map, Function.comp]
    rw [hzero]
    simp only [luaToStruct]
    have hcomp1 : ((fields.map fun f =>
        (⟨f.name, f.tag, f.exported, (f.val.1, zeroVal f.val.1)⟩ :
          FieldInfo (GoType × GoVal))).map fun f =>
        (⟨f.name, f.tag, f.exported, f.val.1⟩ : FieldInfo GoType)) =
        fields.map fun f => ⟨f.name, f.tag, f.exported, f.val.1⟩ := by
      simp [List.map_map, Function.comp]
    have hcomp2 : ((fields.map fun f =>
        (⟨f.name, f.tag, f.exported, (f.val.1, zeroVal f.val.1)⟩ :
          FieldInfo (GoType × GoVal))).map fun f => f.val.2) =
        fields.map fun f => zeroVal f.val.1 := by
      simp [List.map_map, Function.comp]
    rw [hcomp1, hcomp2, decodeStructFields_exact h fields hdec]
    simp [buildStructVal_map_map fields
      (fun f => ⟨f.name, f.tag, f.exported, f.val.1⟩)
      (fun f => if f.exported = true then f.val.2 else zeroVal f.val.1)]

/-- C1 witness: the amended round trip at a concrete three-field struct
(string, int and an unexported bool field). -/
theorem marshal_roundtrip_supported_witness :
    ∃ hash,
      structToTable (.struct sampleStructFields) = .ok (.table [] hash) ∧
      luaToStruct (.table [] hash)
          (zeroVal (GoVal.typeOf (.struct sampleStructFields))) =
        .ok (.struct (sampleStructFields.map fun f =>
          ⟨f.name, f.tag, f.exported,
            (f.val.1, if f.exported = true then f.val.2 else zeroVal f.val.1)⟩)) :=
  marshal_roundtrip_supported sampleStructFields
    (by
      intro f hf hx
      simp only [sampleStructFields, List.mem_cons, List.not_mem_nil, or_false] at hf
      rcases hf with rfl | rfl | rfl <;> rfl)
    (by
      have he : exportedKeys sampleStructFields = ["host", "port"] := rfl
      rw [he]
      decide)

/-- C3 counterexample: a shape mismatch on an unsigned field does not
produce `ErrValidation`: `validateValue` has no case for unsigned
kinds, so a string sitting in a `uint` field passes validation and the
mismatch only surfaces as a plain, code-less decode error. -/
theorem get_uint_validation_hole_counterexample :
    Config.Get [("cfg", .table [] [("count", .str "x")])] "cfg"
        (.struct [⟨"Count", "count", true, (.uint .u, .uint .u 0)⟩]) =
      .error (.plain "field count: cannot convert string to uint") := by
  simp [Config.Get, hashGet, LuaVal.isNil, GoVal.typeOf, validateValue,
    validateFields, fieldKey, luaToStruct, decodeStructFields, luaToGo, goTypeName]

/-- C3 (amended): `Config.Get` is checked decoding: a nil/absent global
yields code `ErrNotFound`; a validation failure yields code
`ErrValidation` before any decoding; decoding happens only when
validation passes, and its errors carry no code.  `validateValue`
rejects, e.g., a string where an int field is expected and a non-table
where a struct or slice is expected — but it performs no check at all
for unsigned-integer fields. -/
theorem get_checked_decoding (globals : Globals) (name : String) (target : GoVal) :
    ((hashGet globals name).isNil = true →
      Config.Get globals name target =
        .error (.lugo ⟨.ErrNotFound,
          "configuration '" ++ name ++ "' not found", none⟩)) ∧
    (∀ e, (hashGet globals name).isNil = false →
      validateValue (hashGet globals name) target.typeOf = .error e →
      Config.Get globals name target =
        .error (.lugo ⟨.ErrValidation, "validation failed", some e⟩)) ∧
    ((hashGet globals name).isNil = false →
      validateValue (hashGet globals name) target.typeOf = .ok () →
      Config.Get globals name target =
        (match luaToStruct (hashGet globals name) target with
         | .error e => .error (.plain e)
         | .ok v => .ok v)) ∧
    (∀ s k, validateValue (.str s) (.int k) = .error "expected number, got string") ∧
    (∀ q fs, validateValue (.number q) (.struct fs) =
      .error "expected table for struct, got number") ∧
    (∀ b e, validateValue (.boolean b) (.slice e) =
      .error "expected table for slice, got boolean") ∧
    (∀ lv k, validateValue lv (.uint k) = .ok ()) := by
  refine ⟨?_, ?_, ?_, ?_, ?_, ?_, ?_⟩
  · intro hnil
    simp [Config.Get, hnil]
  · intro e hnn hval
    simp [Config.Get, hnn, hval]
  · intro hnn hval
    simp [Config.Get, hnn, hval]
  · intro s k
    simp [validateValue, luaTypeName]
  · intro q fs
    simp [validateValue, luaTypeName]
  · intro b e
    simp [validateValue, luaTypeName]
  · intro lv k
    cases lv <;> simp [validateValue]

/-- C3 witness: the three `Get` behaviours at concrete inputs — a
missing global, a string in an int field, and a successful decode. -/
theorem get_checked_decoding_witness :
    Config.Get [("cfg", .table [] [("host", .str "x")])] "missing"
        (.struct [⟨"Host", "host", true, (.str, .str "")⟩]) =
      .error (.lugo ⟨.ErrNotFound,
        "configuration '" ++ "missing" ++ "' not found", none⟩) ∧
    Config.Get [("cfg", .table [] [("port", .str "x")])] "cfg"
        (.struct [⟨"Port", "port", true, (.int .i, .int .i 0)⟩]) =
      .error (.lugo ⟨.ErrValidation, "validation failed",
        some "field port: expected number, got string"⟩) ∧
    Config.Get [("cfg", .table [] [("host", .str "lo")])] "cfg"
        (.struct [⟨"Host", "host", true, (.str, .str "")⟩]) =
      .ok (.struct [⟨"Host", "host", true, (.str, .str "lo")⟩]) := by
  refine ⟨?_, ?_, ?_⟩
  · exact (get_checked_decoding [("cfg", .table [] [("host", .str "x")])] "missing"
      (.struct [⟨"Host", "host", true, (.str, .str "")⟩])).1
      (by simp [hashGet, LuaVal.isNil])
  · exact (get_checked_decoding [("cfg", .table [] [("port", .str "x")])] "cfg"
      (.struct [⟨"Port", "port", true, (.int .i, .int .i 0)⟩])).2.1
      "field port: expected number, got string" (by simp [hashGet, LuaVal.isNil])
      (by simp [hashGet, GoVal.typeOf, validateValue, validateFields, fieldKey,
        luaTypeName])
  · have h := (get_checked_decoding [("cfg", .table [] [("host", .str "lo")])] "cfg"
      (.struct [⟨"Host", "host", true, (.str, .str "")⟩])).2.2.1
      (by simp [hashGet, LuaVal.isNil])
      (by simp [hashGet, GoVal.typeOf, validateValue, validateFields, fieldKey])
    rw [h]
    simp [hashGet, luaToStruct, decodeStructFields, fieldKey, LuaVal.isNil,
      luaToGo, buildStructVal]

/-- C4: the `lua` struct tag determines the external key: for an
exported field both `structToTable` and `luaToStruct` use the tag when
it is non-empty and the lowercased field name otherwise, and an
unexported field is neither encoded nor decoded. -/
theorem structTag_key_naming (n tag : String) (ty : GoType) (v : GoVal)
    (arr : List LuaVal) (hash : List (String × LuaVal)) :
    (∀ lv, goToLua v = .ok lv →
      structToTable (.struct [⟨n, tag, true, (ty, v)⟩]) =
        .ok (.table [] [(if tag = "" then n.toLower else tag, lv)])) ∧
    structToTable (.struct [⟨n, tag, false, (ty, v)⟩]) = .ok (.table [] []) ∧
    (∀ gv, (hashGet hash (if tag = "" then n.toLower else tag)).isNil = false →
      luaToGo (hashGet hash (if tag = "" then n.toLower else tag)) ty = .ok gv →
      luaToStruct (.table arr hash) (.struct [⟨n, tag, true, (ty, v)⟩]) =
        .ok (.struct [⟨n, tag, true, (ty, gv)⟩])) ∧
    ((hashGet hash (if tag = "" then n.toLower else tag)).isNil = true →
      luaToStruct (.table arr hash) (.struct [⟨n, tag, true, (ty, v)⟩]) =
        .ok (.struct [⟨n, tag, true, (ty, v)⟩])) ∧
    luaToStruct (.table arr hash) (.struct [⟨n, tag, false, (ty, v)⟩]) =
      .ok (.struct [⟨n, tag, false, (ty, v)⟩]) := by
  refine ⟨?_, ?_, ?_, ?_, ?_⟩
  · intro lv hlv
    simp [structToTable, structToTableCore, hlv, hashSet, fieldKey]
  · simp [structToTable, structToTableCore]
  · intro gv hnil hgo
    have hnil' : (hashGet hash (fieldKey n tag)).isNil = false := hnil
    have hgo' : luaToGo (hashGet hash (fieldKey n tag)) ty = .ok gv := hgo
    simp [luaToStruct, decodeStructFields, hnil', hgo', buildStructVal]
  · intro hnil
    have hnil' : (hashGet hash (fieldKey n tag)).isNil = true := hnil
    simp [luaToStruct, decodeStructFields, hnil', buildStructVal]
  · simp [luaToStruct, decodeStructFields, buildStructVal]

/-- C4 witness: a tagless field is keyed by its lowercased name, a
tagged field by its tag; an unexported field is skipped by encoding;
decoding reads the tagged key. -/
theorem structTag_key_naming_witness :
    structToTable (.struct [⟨"Host", "", true, (.str, .str "localhost")⟩]) =
      .ok (.table [] [("Host".toLower, .str "localhost")]) ∧
    structToTable (.struct [⟨"Port", "port", true, (.int .i, .int .i 8080)⟩]) =
      .ok (.table [] [("port", .number ((8080 : Int) : ℚ))]) ∧
    structToTable (.struct [⟨"secret", "s", false, (.str, .str "x")⟩]) =
      .ok (.table [] []) ∧
    luaToStruct (.table [] [("port", .number ((7 : Int) : ℚ))])
        (.struct [⟨"Port", "port", true, (.int .i, .int .i 0)⟩]) =
      .ok (.struct [⟨"Port", "port", true, (.int .i, .int .i 7)⟩]) := by
  refine ⟨?_, ?_, ?_, ?_⟩
  · have h := (structTag_key_naming "Host" "" .str (.str "localhost") [] []).1
      (.str "localhost") (by simp [goToLua])
    simpa using h
  · have h := (structTag_key_naming "Port" "port" (.int .i) (.int .i 8080) [] []).1
      (.number ((8080 : Int) : ℚ)) (by simp [goToLua])
    simpa using h
  · exact (structTag_key_naming "secret" "s" .str (.str "x") [] []).2.1
  · exact (structTag_key_naming "Port" "port" (.int .i) (.int .i 0) []
      [("port", .number ((7 : Int) : ℚ))]).2.2.1 (.int .i 7)
      (by simp [hashGet, LuaVal.isNil])
      (by
        simp [hashGet, LuaVal.isNil, luaToGo]
        norm_num [ratTrunc])

/-- C9: decoding merges rather than replaces: when `luaToStruct`
succeeds on a table, every field whose key is nil/absent in the table —
and every unexported field — keeps its prior value unchanged, and only
the fields present in the table are written (with the decoded value);
field headers and types are always preserved. -/
theorem luaToStruct_merge_frame (arr : List LuaVal) (hash : List (String × LuaVal))
    (fields : List (FieldInfo (GoType × GoVal))) (out : GoVal)
    (hok : luaToStruct (.table arr hash) (.struct fields) = .ok out) :
    ∃ outFields, out = .struct outFields ∧
      List.Forall₂ (fun f f' =>
        f'.name = f.name ∧ f'.tag = f.tag ∧ f'.exported = f.exported ∧
        f'.val.1 = f.val.1 ∧
        (f.exported = false → f' = f) ∧
        (f.exported = true → (hashGet hash (fieldKey f.name f.tag)).isNil = true →
          f' = f) ∧
        (f.exported = true → (hashGet hash (fieldKey f.name f.tag)).isNil = false →
          luaToGo (hashGet hash (fieldKey f.name f.tag)) f.val.1 = .ok f'.val.2))
        fields outFields := by
  simp only [luaToStruct] at hok
  cases hrec : decodeStructFields hash
      (fields.map fun f => ⟨f.name, f.tag, f.exported, f.val.1⟩)
      (fields.map fun f => f.val.2) with
  | error e => rw [hrec] at hok; simp at hok
  | ok vals =>
      rw [hrec] at hok
      simp at hok
      have hf2 := decodeStructFields_forall2 hash fields vals hrec
      refine ⟨buildStructVal
        (fields.map fun f => ⟨f.name, f.tag, f.exported, f.val.1⟩) vals,
        hok.symm, ?_⟩
      clear hok hrec
      induction hf2 with
      | nil => exact .nil
      | cons hp hrest ihf =>
          rename_i f v fs vs
          obtain ⟨h1, h2, h3⟩ := hp
          simp only [List.map_cons, buildStructVal, List.zipWith_cons_cons]
          refine .cons ⟨rfl, rfl, rfl, rfl, ?_, ?_, ?_⟩ ?_
          · intro hx
            rw [h1 hx]
          · intro hx hnil
            rw [h2 hx hnil]
          · intro hx hnil
            simpa using h3 hx hnil
          · simpa [buildStructVal] using ihf

/-- C9 witness: the merge behaviour at a concrete struct: a present key
is overwritten, an absent key and an unexported field are untouched. -/
theorem luaToStruct_merge_frame_witness :
    ∃ outFields,
      (GoVal.struct
        [⟨"Host", "host", true, (.str, .str "new")⟩,
         ⟨"Port", "port", true, (.int .i, .int .i 1)⟩,
         ⟨"sec", "s", false, (.bool, .bool true)⟩]) = .struct outFields ∧
      List.Forall₂ (fun f f' =>
        f'.name = f.name ∧ f'.tag = f.tag ∧ f'.exported = f.exported ∧
        f'.val.1 = f.val.1 ∧
        (f.exported = false → f' = f) ∧
        (f.exported = true →
          (hashGet [("host", .str "new")] (fieldKey f.name f.tag)).isNil = true →
          f' = f) ∧
        (f.exported = true →
          (hashGet [("host", .str "new")] (fieldKey f.name f.tag)).isNil = false →
          luaToGo (hashGet [("host", .str "new")] (fieldKey f.name f.tag)) f.val.1 =
            .ok f'.val.2))
        [⟨"Host", "host", true, (.str, .str "old")⟩,
         ⟨"Port", "port", true, (.int .i, .int .i 1)⟩,
         ⟨"sec", "s", false, (.bool, .bool true)⟩] outFields :=
  luaToStruct_merge_frame [] [("host", .str "new")]
    [⟨"Host", "host", true, (.str, .str "old")⟩,
     ⟨"Port", "port", true, (.int .i, .int .i 1)⟩,
     ⟨"sec", "s", false, (.bool, .bool true)⟩]
    (.struct
      [⟨"Host", "host", true, (.str, .str "new")⟩,
       ⟨"Port", "port", true, (.int .i, .int .i 1)⟩,
       ⟨"sec", "s", false, (.bool, .bool true)⟩])
    (by simp [luaToStruct, decodeStructFields, hashGet, fieldKey, LuaVal.isNil,
      luaToGo, buildStructVal])

/-- C10: `TypeConverter.ToInt` is exact and overflow-guarded: a nil
input yields 0 with no error; every signed integer input, and every
unsigned input whose value is representable in `int64`, yields its
exact value with no error; and a `uint64` input greater than
`2^63 - 1` is rejected with code `ErrInvalidType` instead of being
wrapped around. -/
theorem toInt_exact_and_overflow_guarded (v : Int) (n m : Nat)
    (hn : n ≤ 2 ^ 63 - 1) (hm : m > 2 ^ 63 - 1) :
    TypeConverter.ToInt .null = .ok 0 ∧
    TypeConverter.ToInt (.int v) = .ok v ∧
    TypeConverter.ToInt (.int8 v) = .ok v ∧
    TypeConverter.ToInt (.int16 v) = .ok v ∧
    TypeConverter.ToInt (.int32 v) = .ok v ∧
    TypeConverter.ToInt (.int64 v) = .ok v ∧
    TypeConverter.ToInt (.uint n) = .ok (n : Int) ∧
    TypeConverter.ToInt (.uint8 n) = .ok (n : Int) ∧
    TypeConverter.ToInt (.uint16 n) = .ok (n : Int) ∧
    TypeConverter.ToInt (.uint32 n) = .ok (n : Int) ∧
    TypeConverter.ToInt (.uint64 n) = .ok (n : Int) ∧
    ∃ e : LugoError, TypeConverter.ToInt (.uint64 m) = .error e ∧
      e.Code = .ErrInvalidType := by
  refine ⟨rfl, rfl, rfl, rfl, rfl, rfl, ?_, rfl, rfl, rfl, ?_, ?_⟩
  · simp [TypeConverter.ToInt, int64OfUint64_of_le n hn]
  · simp [TypeConverter.ToInt]
    omega
  · refine ⟨⟨.ErrInvalidType, "uint64 value overflows int64", none⟩, ?_, rfl⟩
    simp [TypeConverter.ToInt]
    omega

/-- C10 witness: the theorem instantiated at `v = -5`, `n = 7`,
`m = 2^63`. -/
theorem toInt_exact_and_overflow_guarded_witness :
    (7 : ℕ) ≤ 2 ^ 63 - 1 ∧ (2 ^ 63 : ℕ) > 2 ^ 63 - 1 ∧
    (TypeConverter.ToInt .null = .ok 0 ∧
     TypeConverter.ToInt (.int (-5)) = .ok (-5) ∧
     TypeConverter.ToInt (.int8 (-5)) = .ok (-5) ∧
     TypeConverter.ToInt (.int16 (-5)) = .ok (-5) ∧
     TypeConverter.ToInt (.int32 (-5)) = .ok (-5) ∧
     TypeConverter.ToInt (.int64 (-5)) = .ok (-5) ∧
     TypeConverter.ToInt (.uint 7) = .ok ((7 : ℕ) : Int) ∧
     TypeConverter.ToInt (.uint8 7) = .ok ((7 : ℕ) : Int) ∧
     TypeConverter.ToInt (.uint16 7) = .ok ((7 : ℕ) : Int) ∧
     TypeConverter.ToInt (.uint32 7) = .ok ((7 : ℕ) : Int) ∧
     TypeConverter.ToInt (.uint64 7) = .ok ((7 : ℕ) : Int) ∧
     ∃ e : LugoError, TypeConverter.ToInt (.uint64 (2 ^ 63)) = .error e ∧
       e.Code = .ErrInvalidType) :=
  ⟨by norm_num, by norm_num,
    toInt_exact_and_overflow_guarded (-5) 7 (2 ^ 63) (by norm_num) (by norm_num)⟩

/-- C7: the sandboxed `require` enforces the sandbox policy: with
networking disabled, requiring "socket" yields nil plus the message
"networking is disabled"; with file I/O disabled, requiring "io" or
"os" yields nil plus a module-disabled message; every module name not
caught by those checks is delegated to the original `require`. -/
theorem sandboxRequire_policy (sb : Sandbox) (r : String → LuaVal) (m : String) :
    (sb.EnableNetworking = false →
      sandboxRequire sb r "socket" = [.nil, .str "networking is disabled"]) ∧
    (sb.EnableFileIo = false → m = "io" ∨ m = "os" →
      sandboxRequire sb r m = [.nil, .str ("module '" ++ m ++ "' is disabled")]) ∧
    ((sb.EnableFileIo = true ∨ (m ≠ "io" ∧ m ≠ "os")) →
      (sb.EnableNetworking = true ∨ m ≠ "socket") →
      sandboxRequire sb r m = [r m]) := by
  refine ⟨?_, ?_, ?_⟩
  · intro hnet
    simp [sandboxRequire, hnet]
  · intro hfile hm
    simp [sandboxRequire, hfile, hm]
  · intro h1 h2
    have hio : ¬(sb.EnableFileIo = false ∧ (m = "io" ∨ m = "os")) := by
      rcases h1 with h | ⟨h3, h4⟩
      · simp [h]
      · rintro ⟨-, h5 | h5⟩ <;> [exact h3 h5; exact h4 h5]
    have hsock : ¬(sb.EnableNetworking = false ∧ m = "socket") := by
      rcases h2 with h | h3
      · simp [h]
      · rintro ⟨-, h5⟩; exact h3 h5
    simp [sandboxRequire, hio, hsock]

/-- C7 witness: under a fully locked sandbox, "socket" and "io" are
blocked with the stated messages and "json" is delegated. -/
theorem sandboxRequire_policy_witness :
    sandboxRequire lockedSandbox (fun _ => .gofunc "module") "socket" =
      [.nil, .str "networking is disabled"] ∧
    sandboxRequire lockedSandbox (fun _ => .gofunc "module") "io" =
      [.nil, .str "module 'io' is disabled"] ∧
    sandboxRequire lockedSandbox (fun _ => .gofunc "module") "json" =
      [.gofunc "module"] :=
  ⟨(sandboxRequire_policy lockedSandbox (fun _ => .gofunc "module") "socket").1 rfl,
   (sandboxRequire_policy lockedSandbox (fun _ => .gofunc "module") "io").2.1 rfl
     (Or.inl rfl),
   (sandboxRequire_policy lockedSandbox (fun _ => .gofunc "module") "json").2.2
     (Or.inr ⟨by decide, by decide⟩) (Or.inr (by decide))⟩

/-- C6: middlewares compose in registration order: `WithMiddleware`
appends, `RegisterFunction`'s loop applies them in reverse registration
order so the first-registered middleware is outermost, and on a call
the first middleware runs around the second, which runs around the
wrapped function. -/
theorem middleware_first_registered_outermost {F : Type} (m1 m2 : F → F) (w : F)
    (names : List String) :
    (WithMiddleware m2 (WithMiddleware m1 ⟨[]⟩)).middlewares = [m1, m2] ∧
    applyMiddlewares [m1, m2] w = m1 (m2 w) ∧
    applyMiddlewares (names.map traceMiddleware) (fun _ => ["base"]) () =
      (names.map fun n => "enter:" ++ n) ++
        "base" :: (names.reverse.map fun n => "exit:" ++ n) := by
  refine ⟨by simp [WithMiddleware], rfl, ?_⟩
  rw [applyMiddlewares_trace]
  simp

/-- C8 counterexample: the watch loop's behaviour is identical for two
configurations that differ only in `PollInterval` (5 s vs 1 h), and the
only timer it ever schedules has the `DebounceInterval` duration — the
loop performs no check driven by `PollInterval`. -/
theorem watcher_no_polling_counterexample :
    watchStep ⟨["config.lua"], 5000000000, 100000000⟩ none (.fsEvent .Write) =
      watchStep ⟨["config.lua"], 3600000000000, 100000000⟩ none (.fsEvent .Write) ∧
    watchStep ⟨["config.lua"], 5000000000, 100000000⟩ none (.fsEvent .Write) =
      (some 100000000, false) ∧
    (100000000 : ℕ) ≠ 5000000000 ∧
    (5000000000 : ℕ) ≠ 3600000000000 := by
  refine ⟨rfl, rfl, by norm_num, by norm_num⟩

/-- C8 (amended): `NewWatcher` defaults a zero `PollInterval` to 5
seconds, but change detection is event-driven, not polling: the watch
loop schedules a debounced reload (after `DebounceInterval`) on Write
and Create filesystem events, and its behaviour does not depend on
`PollInterval` at all. -/
theorem watcher_event_driven_debounce (w w2 : WatcherConfig) (timer : Option Nat)
    (hDeb : w.DebounceInterval = w2.DebounceInterval) :
    (w.PollInterval = 0 → (NewWatcher.normalizeConfig w).PollInterval = 5000000000) ∧
    (w.PollInterval ≠ 0 → (NewWatcher.normalizeConfig w).PollInterval = w.PollInterval) ∧
    watchStep w timer (.fsEvent .Write) = (some w.DebounceInterval, false) ∧
    watchStep w timer (.fsEvent .Create) = (some w.DebounceInterval, false) ∧
    (∀ i : WatchInput, watchStep w timer i = watchStep w2 timer i) := by
  refine ⟨?_, ?_, rfl, rfl, ?_⟩
  · intro h
    simp [NewWatcher.normalizeConfig, h]
    split <;> rfl
  · intro h
    simp [NewWatcher.normalizeConfig, h]
    split <;> rfl
  · intro i
    cases i with
    | fsEvent op => cases op <;> simp [watchStep, hDeb]
    | fsError msg => rfl
    | stopSignal => rfl

/-- C8 witness: the amended theorem at two concrete configurations
differing only in `PollInterval`. -/
theorem watcher_event_driven_debounce_witness :
    (NewWatcher.normalizeConfig ⟨["config.lua"], 0, 100000000⟩).PollInterval =
      5000000000 ∧
    watchStep ⟨["config.lua"], 0, 100000000⟩ none (.fsEvent .Write) =
      (some 100000000, false) :=
  ⟨(watcher_event_driven_debounce ⟨["config.lua"], 0, 100000000⟩
      ⟨["config.lua"], 7, 100000000⟩ none rfl).1 rfl,
   (watcher_event_driven_debounce ⟨["config.lua"], 0, 100000000⟩
      ⟨["config.lua"], 7, 100000000⟩ none rfl).2.2.1⟩

/-- C5: the `BeforeLoad` hooks gate `LoadFile`: hooks run in
registration order, and when one fails, `LoadFile` returns an error
with code `ErrExecution`, the file is not executed, the Lua state is
unchanged, and the remaining hooks are never invoked (the log records
exactly the hooks before and including the failing one). -/
theorem loadFile_beforeHook_gate (names : List String) (emsg : String)
    (post after : List (HookFn (List String))) (sb : Sandbox)
    (doFile : Globals → Globals × Option String) (g : Globals)
    (log : List String) :
    runHooks (names.map okHook) log = (log ++ names, none) ∧
    Config.LoadFile (names.map okHook ++ failHook "bad" emsg :: post) after
        sb doFile [] g =
      ⟨names ++ ["bad"], g, false,
        some (.lugo ⟨.ErrExecution, "before load hook failed", some emsg⟩)⟩ := by
  refine ⟨runHooks_okHooks names log, ?_⟩
  unfold Config.LoadFile
  rw [runHooks_okHooks_then_fail]
  simp

/-- C2 (code bug): with file I/O disabled, `applySandboxRestrictions`
does nil out `io`, `dofile`, `loadfile` and `load`, but the global `os`
table is left untouched and still exposes `os.remove`; the restricted
os table (empty here, as syscalls are disabled) exists only inside the
table stored under the global key `_G`, which does not replace the
actual global environment. -/
theorem sandbox_os_global_unrestricted :
    (applySandboxRestrictions lockedSandbox sampleGlobals).2 = none ∧
    hashGet (applySandboxRestrictions lockedSandbox sampleGlobals).1 "io" = .nil ∧
    hashGet (applySandboxRestrictions lockedSandbox sampleGlobals).1 "dofile" = .nil ∧
    hashGet (applySandboxRestrictions lockedSandbox sampleGlobals).1 "loadfile" = .nil ∧
    hashGet (applySandboxRestrictions lockedSandbox sampleGlobals).1 "load" = .nil ∧
    globalTableEntry (applySandboxRestrictions lockedSandbox sampleGlobals).1
      "os" "remove" = .gofunc "os.remove" ∧
    globalTableEntry (applySandboxRestrictions lockedSandbox sampleGlobals).1
      "os" "time" = .gofunc "os.time" ∧
    globalTableEntry (applySandboxRestrictions lockedSandbox sampleGlobals).1
      "_G" "os" = .table [] [] := by
  refine ⟨rfl, rfl, rfl, rfl, rfl, rfl, rfl, rfl⟩

end Lugo
